import Mathlib

/-!
# Flare Cloud file store (`Index.js`): shallow embedding and verified properties

The server is an Express application over one upload directory.  Its handlers and
the hourly sweep `cleanUpOldFiles` are translated below as pure functions over an
explicit file-system state.

Modelling conventions.

* The file system is a finite map from absolute, normalised paths (lists of
  segments) to nodes (regular files and directories).  Symbolic links, parent
  directory checks and the time stamps of a directory whose children change are
  not tracked.
* Times are integer milliseconds (`Date.now()`, `mtimeMs`, `birthtime`).
* Node library calls (`path.join`, `fs.stat`, `fs.unlink`, `fs.readdir`) and the
  Express and multer middleware (`res.download`, `upload.single`) are external to
  the repository; they are embedded from their documented POSIX behaviour.
* A failure of a file-system call that the state alone does not explain (permission,
  disk error) comes from the fault table of the environment.
* `fs.stat` and `fs.unlink` reject a path string holding a NUL byte by throwing before any
  file-system call; thrown inside a route handler, the exception reaches the default error
  handler of Express, which answers 500.  Names returned by `fs.readdir` hold no NUL.
* The callbacks of the asynchronous calls run one after the other, in the order the
  calls were issued.
-/

namespace FlareCloud

/-! ## Data model -/

abbrev Byte := Fin 256

/-- Segments of an absolute, normalised path, outermost first. -/
abbrev Path := List String

inductive Errno where
  | ENOENT | EACCES | EPERM | EISDIR | ENOTDIR | EIO | ENOSPC | EINVAL
  deriving DecidableEq

deriving instance DecidableEq for Except

inductive Node where
  | file (content : List Byte) (birthtimeMs mtimeMs : Int)
  | dir (size : Nat) (birthtimeMs mtimeMs : Int)
  deriving DecidableEq

/-- The fields of `fs.Stats` the program reads. -/
structure Stats where
  size : Nat
  birthtimeMs : Int
  mtimeMs : Int
  isDirectory : Bool
  deriving DecidableEq

abbrev Fs := AList (fun _ : Path => Node)

inductive FsCall where
  | readdir | stat | unlink | read | write
  deriving DecidableEq

/-- Process environment: working directory, `__dirname`, and the injected failures of
file-system calls (per call kind and resolved path). -/
structure Env where
  cwd : Path
  dirname : Path
  fault : FsCall → Path → Option Errno

/-- A path string in parsed form: leading slash, segments between slashes, trailing slash. -/
structure PathStr where
  absolute : Bool
  segs : List String
  trailingSlash : Bool
  deriving DecidableEq

structure MulterFile where
  fieldname : String
  originalname : String
  encoding : String
  mimetype : String
  destination : String
  filename : String
  path : String
  size : Nat
  deriving DecidableEq

/-- The file part of a multipart request body. -/
structure FilePart where
  originalname : String
  encoding : String
  mimetype : String
  content : List Byte
  deriving DecidableEq

inductive Body where
  | text (s : String)
  | uploaded (message : String) (file : MulterFile)
  | names (files : List String)
  | message (message : String)
  | details (filename : String) (size : Nat) (createdAt modifiedAt : Int)
  | attachment (filename : String) (content : List Byte)
  | errorPage
  deriving DecidableEq

structure Response where
  status : Nat
  body : Body
  deriving DecidableEq

structure LogLine where
  isError : Bool
  text : String
  deriving DecidableEq

/-! ## Path strings (`path.join`, resolution against the working directory) -/

/-- Split at every `/`, keeping empty pieces. -/
def splitSlash : List Char → List (List Char)
  | [] => [[]]
  | c :: cs =>
    if c = '/' then [] :: splitSlash cs
    else
      match splitSlash cs with
      | s :: rest => (c :: s) :: rest
      | [] => [[c]]

def segmentsOf (s : String) : List String :=
  (splitSlash s.data).map String.mk

def endsWithSlash (s : String) : Bool :=
  s.data.getLast? = some '/'

/-- One segment of `normalizeString` in Node's `path` module; the stack holds the
segments kept so far, innermost first. -/
def normalizeStep (allowAboveRoot : Bool) (stack : List String) (seg : String) : List String :=
  if seg = "" ∨ seg = "." then stack
  else if seg = ".." then
    match stack with
    | [] => if allowAboveRoot then [".."] else []
    | top :: rest =>
      if top = ".." then (if allowAboveRoot then ".." :: stack else stack) else rest
  else seg :: stack

def normalizeSegs (allowAboveRoot : Bool) (segs : List String) : List String :=
  (segs.foldl (normalizeStep allowAboveRoot) []).reverse

def nonEmptyArgs (args : List String) : List String :=
  args.filter (fun a => decide (a ≠ ""))

def lastEndsWithSlash (args : List String) : Bool :=
  match (nonEmptyArgs args).getLast? with
  | some a => endsWithSlash a
  | none => false

/-- Parsed form of a raw path string handed to `fs` directly. -/
def parsePath (s : String) : PathStr :=
  { absolute := s.data.head? = some '/', segs := segmentsOf s, trailingSlash := endsWithSlash s }

/-- Model of `path.join(...args)` for a relative first argument. -/
def pathJoin (args : List String) : PathStr :=
  { absolute := false
    segs := normalizeSegs true ((nonEmptyArgs args).flatMap segmentsOf)
    trailingSlash := lastEndsWithSlash args }

/-- Model of `path.join(__dirname, ...args)`; `dir` holds the segments of `__dirname`. -/
def pathJoinFrom (dir : Path) (args : List String) : PathStr :=
  { absolute := true
    segs := normalizeSegs false (dir ++ (nonEmptyArgs args).flatMap segmentsOf)
    trailingSlash := lastEndsWithSlash args }

/-- The absolute path the operating system resolves a path string to. -/
def resolve (cwd : Path) (p : PathStr) : Path :=
  normalizeSegs false ((if p.absolute then [] else cwd) ++ p.segs)

/-! ## File-system calls -/

def nodeStats : Node → Stats
  | .file c b m => { size := c.length, birthtimeMs := b, mtimeMs := m, isDirectory := false }
  | .dir s b m => { size := s, birthtimeMs := b, mtimeMs := m, isDirectory := true }

/-- The name of `p` inside directory `d`, when `p` is a direct child of `d`. -/
def childName (d : Path) (p : Path) : Option String :=
  match p.reverse with
  | n :: r => if r.reverse = d then some n else none
  | [] => none

/-- The argument check of `fs` and of `send`: the path string holds a NUL byte. -/
def pathHasNul (p : PathStr) : Prop := ∃ s ∈ p.segs, Char.ofNat 0 ∈ s.data

instance : DecidablePred pathHasNul := fun p => by
  unfold pathHasNul; infer_instance

/-- The node stored at an absolute path, if any. -/
def lookupAt (fs : Fs) (q : Path) : Option Node := fs.lookup q

def fsStat (env : Env) (fs : Fs) (p : PathStr) : Except Errno Stats :=
  let q := resolve env.cwd p
  match env.fault .stat q with
  | some e => .error e
  | none =>
    match lookupAt fs q with
    | none => .error .ENOENT
    | some (.file c b m) =>
      if p.trailingSlash then .error .ENOTDIR else .ok (nodeStats (.file c b m))
    | some (.dir s b m) => .ok (nodeStats (.dir s b m))

def fsUnlink (env : Env) (fs : Fs) (p : PathStr) : Except Errno Fs :=
  let q := resolve env.cwd p
  match env.fault .unlink q with
  | some e => .error e
  | none =>
    match lookupAt fs q with
    | none => .error .ENOENT
    | some (.file _ _ _) => if p.trailingSlash then .error .ENOTDIR else .ok (fs.erase q)
    | some (.dir _ _ _) => .error .EISDIR

def fsReaddir (env : Env) (fs : Fs) (p : PathStr) : Except Errno (List String) :=
  let q := resolve env.cwd p
  match env.fault .readdir q with
  | some e => .error e
  | none =>
    match lookupAt fs q with
    | none => .error .ENOENT
    | some (.file _ _ _) => .error .ENOTDIR
    | some (.dir _ _ _) => .ok (fs.keys.filterMap (childName q))

/-- Reading a regular file for `res.download`, which resolves the path first (a trailing
slash is dropped). -/
def fsReadFile (env : Env) (fs : Fs) (p : PathStr) : Except Errno (List Byte) :=
  let q := resolve env.cwd p
  match env.fault .read q with
  | some e => .error e
  | none =>
    match lookupAt fs q with
    | none => .error .ENOENT
    | some (.file c _ _) => .ok c
    | some (.dir _ _ _) => .error .EISDIR

/-! ## Middleware of the libraries -/

def UPLOAD_DIR : String := "uploads/"

def ONE_DAY : Int := 24 * 60 * 60 * 1000

/-- Model of `upload.single('file')` for `multer` with `dest: UPLOAD_DIR`: without a file
part `req.file` stays undefined; with one, the bytes are written to a new entry of the
destination directory under the generated name `rand`, and `req.file` describes it. -/
def multerSingle (env : Env) (now : Int) (rand : String) (fs : Fs) (part : Option FilePart) :
    Except Errno (Fs × Option MulterFile) :=
  match part with
  | none => .ok (fs, none)
  | some part =>
    let q := resolve env.cwd (pathJoin [UPLOAD_DIR, rand])
    match env.fault .write q with
    | some e => .error e
    | none =>
      let meta : MulterFile :=
        { fieldname := "file", originalname := part.originalname, encoding := part.encoding,
          mimetype := part.mimetype, destination := UPLOAD_DIR, filename := rand,
          path := UPLOAD_DIR ++ rand, size := part.content.length }
      match lookupAt fs q with
      | some (.dir _ _ _) => .error .EISDIR
      | some (.file _ b _) => .ok (fs.insert q (.file part.content b now), some meta)
      | none => .ok (fs.insert q (.file part.content now now), some meta)

/-- Model of `res.download(filePath, cb)`: the result is either the response that was
sent or the error handed to the callback (also for a path holding a NUL byte, which `send`
refuses). -/
def resDownload (env : Env) (fs : Fs) (p : PathStr) : Except Errno Response :=
  if pathHasNul p then .error .EINVAL
  else
    match fsReadFile env fs p with
    | .error e => .error e
    | .ok bytes => .ok { status := 200, body := .attachment (p.segs.getLast?.getD "") bytes }

/-! ## The program -/

/-- Startup: `if (!fs.existsSync(UPLOAD_DIR)) fs.mkdirSync(UPLOAD_DIR)`. -/
def ensureUploadDir (env : Env) (now : Int) (fs : Fs) : Fs :=
  let q := resolve env.cwd (parsePath UPLOAD_DIR)
  match lookupAt fs q with
  | some _ => fs
  | none => fs.insert q (.dir 4096 now now)

/-- The handler of `POST /upload`, run after `upload.single('file')` has set `req.file`. -/
def uploadHandler (file : Option MulterFile) : Response :=
  match file with
  | none => { status := 400, body := .text "No file uploaded." }
  | some f => { status := 200, body := .uploaded "File uploaded successfully!" f }

/-- The route `POST /upload`: middleware, then handler; an error of the middleware goes to
the default error handler of Express. -/
def postUpload (env : Env) (now : Int) (rand : String) (fs : Fs) (part : Option FilePart) :
    Fs × Response :=
  match multerSingle env now rand fs part with
  | .error _ => (fs, { status := 500, body := .errorPage })
  | .ok (fs', file) => (fs', uploadHandler file)

/-- The route `GET /files`. -/
def listFiles (env : Env) (fs : Fs) : Response :=
  match fsReaddir env fs (parsePath UPLOAD_DIR) with
  | .error _ => { status := 500, body := .text "Unable to list files." }
  | .ok files => { status := 200, body := .names files }

/-- The path the three `/files/:filename` handlers build. -/
def filePathOf (env : Env) (filename : String) : PathStr :=
  pathJoinFrom env.dirname [UPLOAD_DIR, filename]

/-- The route `GET /files/:filename`. -/
def downloadFile (env : Env) (fs : Fs) (filename : String) : Response :=
  let filePath := filePathOf env filename
  match resDownload env fs filePath with
  | .error _ => { status := 404, body := .text "File not found." }
  | .ok r => r

/-- The route `DELETE /files/:filename`.  When `filePath` holds a NUL byte, `fs.unlink`
throws inside the handler and Express answers 500. -/
def deleteFile (env : Env) (fs : Fs) (filename : String) : Fs × Response :=
  let filePath := filePathOf env filename
  if pathHasNul filePath then (fs, { status := 500, body := .errorPage })
  else
    match fsUnlink env fs filePath with
    | .error _ => (fs, { status := 404, body := .text "File not found." })
    | .ok fs' => (fs', { status := 200, body := .message "File deleted successfully!" })

/-- The route `GET /files/:filename/details`.  When `filePath` holds a NUL byte, `fs.stat`
throws inside the handler and Express answers 500. -/
def fileDetails (env : Env) (fs : Fs) (filename : String) : Response :=
  let filePath := filePathOf env filename
  if pathHasNul filePath then { status := 500, body := .errorPage }
  else
    match fsStat env fs filePath with
    | .error _ => { status := 404, body := .text "File not found." }
    | .ok stats =>
      { status := 200, body := .details filename stats.size stats.birthtimeMs stats.mtimeMs }

/-- The body of `files.forEach` in `cleanUpOldFiles`, for one name. -/
def sweepEntry (env : Env) (now : Int) (st : Fs × List LogLine) (file : String) :
    Fs × List LogLine :=
  let filePath := pathJoin [UPLOAD_DIR, file]
  match fsStat env st.1 filePath with
  | .error _ => (st.1, st.2 ++ [{ isError := true, text := "Error getting file stats for cleanup:" }])
  | .ok stats =>
    if now - stats.mtimeMs > ONE_DAY then
      match fsUnlink env st.1 filePath with
      | .error _ => (st.1, st.2 ++ [{ isError := true, text := "Error deleting old file:" }])
      | .ok fs' => (fs', st.2 ++ [{ isError := false, text := "Deleted old file: " ++ file }])
    else st

/-- The sweep `cleanUpOldFiles`; `now` is the value `Date.now()` returns in the callback of
`readdir`.  The result is the file system afterwards and the console lines written. -/
def cleanUpOldFiles (env : Env) (now : Int) (fs : Fs) : Fs × List LogLine :=
  match fsReaddir env fs (parsePath UPLOAD_DIR) with
  | .error _ =>
    (fs, [{ isError := true, text := "Error reading upload directory for cleanup:" }])
  | .ok files => files.foldl (sweepEntry env now) (fs, [])

/-! ## Well-formed names and states -/

/-- A name a directory entry can carry: not empty, not `.` or `..`, without `/` or NUL. -/
def PlainName (s : String) : Prop :=
  s ≠ "" ∧ s ≠ "." ∧ s ≠ ".." ∧ '/' ∉ s.data ∧ Char.ofNat 0 ∉ s.data

instance : DecidablePred PlainName := fun s => by
  unfold PlainName; infer_instance

def PlainPath (p : Path) : Prop := ∀ s ∈ p, PlainName s

instance : DecidablePred PlainPath := fun p => by
  unfold PlainPath; infer_instance

/-- Every key of the file system is a path of entry names. -/
def WellFormed (fs : Fs) : Prop := ∀ p ∈ fs.keys, PlainPath p

instance : DecidablePred WellFormed := fun fs => by
  unfold WellFormed; infer_instance

/-- The directory `multer`, the list handler and the sweep work in (`UPLOAD_DIR` seen from
the working directory). -/
def storageDir (env : Env) : Path := env.cwd ++ ["uploads"]

/-- The directory the download, details and delete handlers work in (`UPLOAD_DIR` seen
from `__dirname`). -/
def handlerDir (env : Env) : Path := env.dirname ++ ["uploads"]

/-- Whether a relative path, entered at depth `d` below a directory, ever leaves it. -/
def climbs : Nat → List String → Bool
  | _, [] => false
  | d, s :: rest =>
    if s = "" ∨ s = "." then climbs d rest
    else if s = ".." then
      match d with
      | 0 => true
      | d + 1 => climbs d rest
    else climbs (d + 1) rest

def isOld (now : Int) (n : Node) : Prop := now - (nodeStats n).mtimeMs > ONE_DAY

instance (now : Int) (n : Node) : Decidable (isOld now n) := by
  unfold isOld; infer_instance

/-! ## Vocabulary of the statements and sample states -/

/-- Whether the sweep may remove a node: a regular file last modified more than a day ago. -/
def removable (now : Int) : Option Node → Bool
  | some (.file _ _ m) => decide (now - m > ONE_DAY)
  | _ => false

/-- Whether one pass of `sweepEntry` over the entry at `q` removes it: `stat` and `unlink`
both succeed there and the file is older than a day. -/
def sweeps (env : Env) (now : Int) (fs : Fs) (q : Path) : Bool :=
  (env.fault .stat q).isNone && (env.fault .unlink q).isNone && removable now (lookupAt fs q)

/-- No line of the console output reports an error. -/
def noErrors (log : List LogLine) : Prop := ∀ l ∈ log, l.isError = false

instance : DecidablePred noErrors := fun log => by
  unfold noErrors; infer_instance

/-- One day old upload, one fresh upload, in `/srv/uploads`. -/
def sweepFs : Fs :=
  (((∅ : Fs).insert ["srv", "uploads"] (.dir 4096 0 0)).insert
    ["srv", "uploads", "old"] (.file [104, 105] 0 0)).insert
    ["srv", "uploads", "new"] (.file [111, 107] 90000000 90000000)

def sweepEnv : Env := { cwd := ["srv"], dirname := ["srv"], fault := fun _ _ => none }

/-- The environment `sweepEnv` in which `stat` of `/srv/uploads/new` is refused. -/
def sweepEnvDenied : Env :=
  { cwd := ["srv"], dirname := ["srv"],
    fault := fun c q =>
      if c = .stat ∧ q = ["srv", "uploads", "new"] then some .EACCES else none }

/-- A segment that `normalizeString` keeps as it is. -/
def CleanSeg (s : String) : Prop := s ≠ "" ∧ s ≠ "." ∧ s ≠ ".."

/-- An application directory `/srv/app` with its upload directory, one upload, and one file
of the application next to the upload directory. -/
def appFs : Fs :=
  (((((∅ : Fs).insert ["srv"] (.dir 4096 0 0)).insert
    ["srv", "app"] (.dir 4096 0 0)).insert
    ["srv", "app", "uploads"] (.dir 4096 0 0)).insert
    ["srv", "app", "uploads", "x"] (.file [104, 105] 10 10)).insert
    ["srv", "app", "secret.txt"] (.file [1, 2, 3] 5 6)

/-- The server started inside `/srv/app`. -/
def appEnv : Env := { cwd := ["srv", "app"], dirname := ["srv", "app"], fault := fun _ _ => none }

/-- The environment `appEnv` in which the upload `x` may not be unlinked or inspected. -/
def appEnvDenied : Env :=
  { cwd := ["srv", "app"], dirname := ["srv", "app"],
    fault := fun c q =>
      if (c = .unlink ∨ c = .stat) ∧ q = ["srv", "app", "uploads", "x"] then some .EACCES
      else none }

/-- The server file lies in `/srv/app` and the process is started from `/srv`
(`node app/Index.js`). -/
def splitEnv : Env := { cwd := ["srv"], dirname := ["srv", "app"], fault := fun _ _ => none }

/-- The state after startup in `splitEnv`: the startup code has created `/srv/uploads`. -/
def splitFs : Fs :=
  ensureUploadDir splitEnv 0
    (((∅ : Fs).insert ["srv"] (.dir 4096 0 0)).insert ["srv", "app"] (.dir 4096 0 0))

/-- A state of `splitEnv` in which both `/srv/uploads` and `/srv/app/uploads` hold an
entry `x`. -/
def splitFsBoth : Fs :=
  (((splitFs.insert ["srv", "app", "uploads"] (.dir 4096 0 0)).insert
    ["srv", "app", "uploads", "x"] (.file [1] 5 5)).insert
    ["srv", "uploads", "x"] (.file [104, 105] 7 7))

/-- The request parameter `a%00b` after decoding. -/
def nulName : String := String.mk ['a', Char.ofNat 0, 'b']

def helloPart : FilePart :=
  { originalname := "hello.txt", encoding := "7bit", mimetype := "text/plain",
    content := [104, 105] }

/-! ## Lemmas on paths -/

theorem splitSlash_of_not_mem (cs : List Char) (h : '/' ∉ cs) : splitSlash cs = [cs] := by
  induction cs with
  | nil => rfl
  | cons c cs ih =>
    simp only [List.mem_cons, not_or] at h
    have hc : c ≠ '/' := fun e => h.1 e.symm
    simp [splitSlash, hc, ih h.2]

theorem segmentsOf_plain {s : String} (h : PlainName s) : segmentsOf s = [s] := by
  unfold segmentsOf
  rw [splitSlash_of_not_mem _ h.2.2.2.1]
  rfl

theorem endsWithSlash_plain {s : String} (h : PlainName s) : endsWithSlash s = false := by
  unfold endsWithSlash
  by_contra hc
  simp only [Bool.not_eq_false, decide_eq_true_eq] at hc
  exact h.2.2.2.1 (List.mem_of_getLast?_eq_some hc)

theorem normalizeStep_plain (b : Bool) (st : List String) {s : String} (h : PlainName s) :
    normalizeStep b st s = s :: st := by
  simp [normalizeStep, h.1, h.2.1, h.2.2.1]

theorem foldl_normalizeStep_plain (b : Bool) (segs : List String) (h : PlainPath segs)
    (st : List String) : segs.foldl (normalizeStep b) st = segs.reverse ++ st := by
  induction segs generalizing st with
  | nil => rfl
  | cons s segs ih =>
    have hs : PlainName s := h s (List.mem_cons_self _ _)
    have ht : PlainPath segs := fun t ht => h t (List.mem_cons_of_mem _ ht)
    simp [List.foldl_cons, normalizeStep_plain b st hs, ih ht]

theorem normalizeSegs_plain (b : Bool) (segs : List String) (h : PlainPath segs) :
    normalizeSegs b segs = segs := by
  simp [normalizeSegs, foldl_normalizeStep_plain b segs h]

theorem segmentsOf_UPLOAD_DIR : segmentsOf UPLOAD_DIR = ["uploads", ""] := by decide

theorem plainName_uploads : PlainName "uploads" := by decide

theorem nonEmptyArgs_pair {name : String} (h : PlainName name) :
    nonEmptyArgs [UPLOAD_DIR, name] = [UPLOAD_DIR, name] := by
  have h1 : UPLOAD_DIR ≠ "" := by decide
  simp [nonEmptyArgs, List.filter, h1, h.1]

theorem joinedSegs_pair {name : String} (h : PlainName name) :
    (nonEmptyArgs [UPLOAD_DIR, name]).flatMap segmentsOf = ["uploads", "", name] := by
  rw [nonEmptyArgs_pair h]
  simp [List.flatMap, segmentsOf_UPLOAD_DIR, segmentsOf_plain h]

theorem lastEndsWithSlash_pair {name : String} (h : PlainName name) :
    lastEndsWithSlash [UPLOAD_DIR, name] = false := by
  unfold lastEndsWithSlash
  rw [nonEmptyArgs_pair h]
  simp [endsWithSlash_plain h]

theorem foldl_normalizeStep_entry (b : Bool) (base : List String) (hb : PlainPath base)
    {name : String} (h : PlainName name) :
    (base ++ ["uploads", "", name]).foldl (normalizeStep b) [] =
      name :: "uploads" :: base.reverse := by
  rw [List.foldl_append, foldl_normalizeStep_plain b base hb]
  simp only [List.foldl_cons, List.foldl_nil, List.append_nil]
  rw [normalizeStep_plain b _ plainName_uploads]
  have he : normalizeStep b ("uploads" :: base.reverse) "" = "uploads" :: base.reverse := by
    simp [normalizeStep]
  rw [he, normalizeStep_plain b _ h]

theorem plainPath_entry {base : List String} (hb : PlainPath base) {name : String}
    (h : PlainName name) : PlainPath (base ++ ["uploads", name]) := by
  intro s hs
  simp only [List.mem_append, List.mem_cons, List.mem_singleton, List.not_mem_nil,
    or_false] at hs
  rcases hs with hs | hs | hs
  · exact hb s hs
  · exact hs ▸ plainName_uploads
  · exact hs ▸ h

theorem plainPath_dir {base : List String} (hb : PlainPath base) :
    PlainPath (base ++ ["uploads"]) := by
  intro s hs
  simp only [List.mem_append, List.mem_singleton] at hs
  rcases hs with hs | hs
  · exact hb s hs
  · exact hs ▸ plainName_uploads

theorem filePathOf_segs (env : Env) (hd : PlainPath env.dirname) {name : String}
    (h : PlainName name) : (filePathOf env name).segs = env.dirname ++ ["uploads", name] := by
  simp only [filePathOf, pathJoinFrom, normalizeSegs]
  rw [joinedSegs_pair h, foldl_normalizeStep_entry false env.dirname hd h]
  simp

theorem filePathOf_trailingSlash (env : Env) {name : String} (h : PlainName name) :
    (filePathOf env name).trailingSlash = false := by
  simp only [filePathOf, pathJoinFrom]
  exact lastEndsWithSlash_pair h

theorem resolve_filePathOf (env : Env) (hd : PlainPath env.dirname) {name : String}
    (h : PlainName name) :
    resolve env.cwd (filePathOf env name) = handlerDir env ++ [name] := by
  have ha : (filePathOf env name).absolute = true := rfl
  unfold resolve
  rw [ha, filePathOf_segs env hd h]
  simp only [if_true, List.nil_append]
  rw [normalizeSegs_plain false _ (plainPath_entry hd h)]
  simp [handlerDir]

theorem pathJoin_segs {name : String} (h : PlainName name) :
    (pathJoin [UPLOAD_DIR, name]).segs = ["uploads", name] := by
  simp only [pathJoin, normalizeSegs]
  rw [joinedSegs_pair h]
  have := foldl_normalizeStep_entry true [] (fun _ hs => absurd hs (List.not_mem_nil _)) h
  simp only [List.nil_append, List.reverse_nil] at this
  rw [this]
  simp

theorem pathJoin_trailingSlash {name : String} (h : PlainName name) :
    (pathJoin [UPLOAD_DIR, name]).trailingSlash = false := by
  simp only [pathJoin]
  exact lastEndsWithSlash_pair h

theorem resolve_pathJoin (env : Env) (hc : PlainPath env.cwd) {name : String}
    (h : PlainName name) :
    resolve env.cwd (pathJoin [UPLOAD_DIR, name]) = storageDir env ++ [name] := by
  have ha : (pathJoin [UPLOAD_DIR, name]).absolute = false := rfl
  unfold resolve
  rw [ha, pathJoin_segs h]
  simp only [Bool.false_eq_true, if_false]
  rw [normalizeSegs_plain false _ (plainPath_entry hc h)]
  simp [storageDir]

theorem resolve_UPLOAD_DIR (env : Env) (hc : PlainPath env.cwd) :
    resolve env.cwd (parsePath UPLOAD_DIR) = storageDir env := by
  have ha : (parsePath UPLOAD_DIR).absolute = false := by decide
  have hs : (parsePath UPLOAD_DIR).segs = ["uploads", ""] := segmentsOf_UPLOAD_DIR
  unfold resolve
  rw [ha, hs]
  simp only [Bool.false_eq_true, if_false, normalizeSegs]
  rw [List.foldl_append, foldl_normalizeStep_plain false env.cwd hc]
  simp only [List.foldl_cons, List.foldl_nil, List.append_nil]
  rw [normalizeStep_plain false _ plainName_uploads]
  simp [normalizeStep, storageDir]

/-! ## Lemmas on directory listings -/

theorem childName_eq_some (d p : Path) (n : String) :
    childName d p = some n ↔ p = d ++ [n] := by
  unfold childName
  constructor
  · intro h
    cases hp : p.reverse with
    | nil => rw [hp] at h; simp at h
    | cons m r =>
      rw [hp] at h
      simp only at h
      split at h
      · rename_i hr
        have hm : m = n := by simpa using h
        have : p = (m :: r).reverse := by rw [← hp, List.reverse_reverse]
        rw [this, List.reverse_cons, hr, hm]
      · simp at h
  · intro h
    subst h
    simp

theorem isSome_childName (d p : Path) :
    (childName d p).isSome = true ↔ ∃ n, p = d ++ [n] := by
  rw [Option.isSome_iff_exists]
  exact exists_congr (fun n => childName_eq_some d p n)

theorem mem_listing (fs : Fs) (d : Path) (n : String) :
    n ∈ fs.keys.filterMap (childName d) ↔ d ++ [n] ∈ fs.keys := by
  simp only [List.mem_filterMap, childName_eq_some]
  constructor
  · rintro ⟨p, hp, rfl⟩
    exact hp
  · intro h
    exact ⟨_, h, rfl⟩

theorem plainName_of_listing (fs : Fs) (hwf : WellFormed fs) (d : Path) (n : String)
    (h : n ∈ fs.keys.filterMap (childName d)) : PlainName n := by
  rw [mem_listing] at h
  exact hwf _ h n (by simp)

/-! ## Lemmas on the file-system calls -/

theorem lookupAt_erase_self (fs : Fs) (q : Path) : lookupAt (fs.erase q) q = none :=
  AList.lookup_erase q fs

theorem lookupAt_erase_ne (fs : Fs) {q r : Path} (h : r ≠ q) :
    lookupAt (fs.erase q) r = lookupAt fs r :=
  AList.lookup_erase_ne h

theorem lookupAt_insert_self (fs : Fs) (q : Path) (n : Node) :
    lookupAt (fs.insert q n) q = some n :=
  AList.lookup_insert fs

theorem lookupAt_insert_ne (fs : Fs) {q r : Path} (n : Node) (h : r ≠ q) :
    lookupAt (fs.insert q n) r = lookupAt fs r :=
  AList.lookup_insert_ne h

theorem mem_keys_iff (fs : Fs) (q : Path) : q ∈ fs.keys ↔ ∃ n, lookupAt fs q = some n := by
  unfold lookupAt
  rw [← AList.mem_keys, ← AList.lookup_isSome, Option.isSome_iff_exists]

theorem fsStat_eq (env : Env) (fs : Fs) (p : PathStr) (ht : p.trailingSlash = false) :
    fsStat env fs p =
      match env.fault .stat (resolve env.cwd p) with
      | some e => .error e
      | none =>
        match lookupAt fs (resolve env.cwd p) with
        | none => .error .ENOENT
        | some n => .ok (nodeStats n) := by
  unfold fsStat
  dsimp only
  cases env.fault .stat (resolve env.cwd p) with
  | some e => rfl
  | none =>
    cases lookupAt fs (resolve env.cwd p) with
    | none => rfl
    | some n => cases n <;> simp [ht]

theorem fsUnlink_eq (env : Env) (fs : Fs) (p : PathStr) (ht : p.trailingSlash = false) :
    fsUnlink env fs p =
      match env.fault .unlink (resolve env.cwd p) with
      | some e => .error e
      | none =>
        match lookupAt fs (resolve env.cwd p) with
        | none => .error .ENOENT
        | some (.file _ _ _) => .ok (fs.erase (resolve env.cwd p))
        | some (.dir _ _ _) => .error .EISDIR := by
  unfold fsUnlink
  dsimp only
  cases env.fault .unlink (resolve env.cwd p) with
  | some e => rfl
  | none =>
    cases lookupAt fs (resolve env.cwd p) with
    | none => rfl
    | some n => cases n <;> simp [ht]

/-! ## The sweep, entry by entry -/

theorem sweepEntry_eq (env : Env) (hc : PlainPath env.cwd) (now : Int)
    (st : Fs × List LogLine) {name : String} (h : PlainName name) :
    sweepEntry env now st name =
      match env.fault .stat (storageDir env ++ [name]) with
      | some _ =>
        (st.1, st.2 ++ [{ isError := true, text := "Error getting file stats for cleanup:" }])
      | none =>
        match lookupAt st.1 (storageDir env ++ [name]) with
        | none =>
          (st.1, st.2 ++ [{ isError := true, text := "Error getting file stats for cleanup:" }])
        | some n =>
          if now - (nodeStats n).mtimeMs > ONE_DAY then
            match env.fault .unlink (storageDir env ++ [name]), n with
            | none, .file _ _ _ =>
              (st.1.erase (storageDir env ++ [name]),
                st.2 ++ [{ isError := false, text := "Deleted old file: " ++ name }])
            | _, _ => (st.1, st.2 ++ [{ isError := true, text := "Error deleting old file:" }])
          else st := by
  unfold sweepEntry
  dsimp only
  rw [fsStat_eq env st.1 _ (pathJoin_trailingSlash h),
    fsUnlink_eq env st.1 _ (pathJoin_trailingSlash h), resolve_pathJoin env hc h]
  cases env.fault .stat (storageDir env ++ [name]) with
  | some e => rfl
  | none =>
    cases lookupAt st.1 (storageDir env ++ [name]) with
    | none => rfl
    | some n =>
      simp only
      split
      · cases env.fault .unlink (storageDir env ++ [name]) with
        | some e => cases n <;> rfl
        | none => cases n <;> rfl
      · rfl

theorem sweepEntry_lookup (env : Env) (hc : PlainPath env.cwd) (now : Int)
    (st : Fs × List LogLine) {name : String} (h : PlainName name) (r : Path) :
    lookupAt (sweepEntry env now st name).1 r =
      if r = storageDir env ++ [name] ∧ sweeps env now st.1 r = true then none
      else lookupAt st.1 r := by
  rw [sweepEntry_eq env hc now st h]
  by_cases hr : r = storageDir env ++ [name]
  · subst hr
    simp only [true_and, sweeps]
    cases hs : env.fault .stat (storageDir env ++ [name]) with
    | some e => simp
    | none =>
      cases hl : lookupAt st.1 (storageDir env ++ [name]) with
      | none => simp [removable, hl]
      | some n =>
        cases hu : env.fault .unlink (storageDir env ++ [name]) with
        | some e =>
          by_cases hold : now - (nodeStats n).mtimeMs > ONE_DAY <;> simp [hold, hl]
        | none =>
          cases n with
          | dir sz b m => by_cases hold : now - m > ONE_DAY <;> simp [removable, nodeStats, hold, hl]
          | file c b m =>
            by_cases hold : now - m > ONE_DAY <;>
              simp [removable, nodeStats, hold, hl, lookupAt_erase_self]
  · simp only [hr, false_and, if_false]
    cases hs : env.fault .stat (storageDir env ++ [name]) with
    | some e => rfl
    | none =>
      cases hl : lookupAt st.1 (storageDir env ++ [name]) with
      | none => rfl
      | some n =>
        simp only
        split
        · cases hu : env.fault .unlink (storageDir env ++ [name]) with
          | some e => rfl
          | none =>
            cases n with
            | dir sz b m => rfl
            | file c b m => exact lookupAt_erase_ne st.1 hr
        · rfl

theorem sweeps_congr (env : Env) (now : Int) {fs1 fs2 : Fs} {r : Path}
    (h : lookupAt fs1 r = lookupAt fs2 r) : sweeps env now fs1 r = sweeps env now fs2 r := by
  simp [sweeps, h]

theorem sweeps_of_lookup_none (env : Env) (now : Int) {fs : Fs} {r : Path}
    (h : lookupAt fs r = none) : sweeps env now fs r = false := by
  simp [sweeps, h, removable]

theorem sweep_fold_lookup (env : Env) (hc : PlainPath env.cwd) (now : Int)
    (names : List String) (hn : ∀ n ∈ names, PlainName n) (st : Fs × List LogLine) (r : Path) :
    lookupAt (names.foldl (sweepEntry env now) st).1 r =
      if (∃ n ∈ names, r = storageDir env ++ [n]) ∧ sweeps env now st.1 r = true then none
      else lookupAt st.1 r := by
  induction names generalizing st with
  | nil => simp
  | cons n rest ih =>
    have hpn : PlainName n := hn n (List.mem_cons_self _ _)
    have hrest : ∀ m ∈ rest, PlainName m := fun m hm => hn m (List.mem_cons_of_mem _ hm)
    rw [List.foldl_cons, ih hrest (sweepEntry env now st n)]
    have hstep := sweepEntry_lookup env hc now st hpn r
    by_cases hA : r = storageDir env ++ [n] ∧ sweeps env now st.1 r = true
    · rw [if_pos hA] at hstep
      rw [sweeps_of_lookup_none env now hstep, hstep]
      have hex : ∃ m ∈ n :: rest, r = storageDir env ++ [m] := ⟨n, List.mem_cons_self _ _, hA.1⟩
      have hR : (if (∃ m ∈ n :: rest, r = storageDir env ++ [m]) ∧ sweeps env now st.1 r = true
          then none else lookupAt st.1 r) = none := if_pos ⟨hex, hA.2⟩
      rw [hR]
      simp
    · rw [if_neg hA] at hstep
      rw [sweeps_congr env now hstep, hstep]
      by_cases hs : sweeps env now st.1 r = true
      · have hne : r ≠ storageDir env ++ [n] := fun e => hA ⟨e, hs⟩
        have hiff : (∃ m ∈ n :: rest, r = storageDir env ++ [m]) ↔
            (∃ m ∈ rest, r = storageDir env ++ [m]) := by
          constructor
          · rintro ⟨m, hm, e⟩
            rcases List.mem_cons.1 hm with rfl | hm
            · exact absurd e hne
            · exact ⟨m, hm, e⟩
          · rintro ⟨m, hm, e⟩
            exact ⟨m, List.mem_cons_of_mem _ hm, e⟩
        simp only [hiff]
      · simp [hs]

theorem fsReaddir_ok (env : Env) (hc : PlainPath env.cwd) (fs : Fs) (files : List String)
    (h : fsReaddir env fs (parsePath UPLOAD_DIR) = .ok files) :
    files = fs.keys.filterMap (childName (storageDir env)) := by
  unfold fsReaddir at h
  dsimp only at h
  rw [resolve_UPLOAD_DIR env hc] at h
  cases hf : env.fault .readdir (storageDir env) with
  | some e => simp [hf] at h
  | none =>
    rw [hf] at h
    cases hl : lookupAt fs (storageDir env) with
    | none => simp [hl] at h
    | some n =>
      cases n with
      | file c b m => simp [hl] at h
      | dir sz b m =>
        simp only [hl, Except.ok.injEq] at h
        exact h.symm

/-- Closed form of one sweep cycle whose `readdir` succeeds: exactly the entries of the
storage directory on which `sweeps` holds disappear. -/
theorem cleanUp_lookup (env : Env) (hc : PlainPath env.cwd) (now : Int) (fs : Fs)
    (hwf : WellFormed fs) (files : List String)
    (hrd : fsReaddir env fs (parsePath UPLOAD_DIR) = .ok files) (r : Path) :
    lookupAt (cleanUpOldFiles env now fs).1 r =
      if (childName (storageDir env) r).isSome = true ∧ sweeps env now fs r = true then none
      else lookupAt fs r := by
  have hfiles := fsReaddir_ok env hc fs files hrd
  unfold cleanUpOldFiles
  rw [hrd]
  dsimp only
  have hplain : ∀ n ∈ files, PlainName n := by
    intro n hn
    rw [hfiles] at hn
    exact plainName_of_listing fs hwf _ n hn
  rw [sweep_fold_lookup env hc now files hplain (fs, []) r]
  dsimp only
  by_cases hs : sweeps env now fs r = true
  · have hiff : (∃ n ∈ files, r = storageDir env ++ [n]) ↔
        (childName (storageDir env) r).isSome = true := by
      rw [isSome_childName]
      constructor
      · rintro ⟨n, _, e⟩
        exact ⟨n, e⟩
      · rintro ⟨n, e⟩
        refine ⟨n, ?_, e⟩
        rw [hfiles, mem_listing, ← e, mem_keys_iff]
        cases hl : lookupAt fs r with
        | none => rw [sweeps_of_lookup_none env now hl] at hs; exact absurd hs (by simp)
        | some nd => exact ⟨nd, rfl⟩
    simp only [hiff]
  · simp [hs]

/-! ## The console of the sweep -/

theorem not_noErrors_append (log : List LogLine) (t : String) :
    ¬ noErrors (log ++ [{ isError := true, text := t }]) := by
  intro h
  have := h { isError := true, text := t } (by simp)
  simp at this

theorem noErrors_of_append (log extra : List LogLine) (h : noErrors (log ++ extra)) :
    noErrors log :=
  fun l hl => h l (List.mem_append_left _ hl)

theorem sweeps_iff_isOld (env : Env) (now : Int) (fs : Fs) (q : Path) (n : Node)
    (hl : lookupAt fs q = some n) (hs : env.fault .stat q = none)
    (hu : isOld now n → env.fault .unlink q = none ∧ ∃ c b m, n = .file c b m) :
    sweeps env now fs q = true ↔ isOld now n := by
  constructor
  · intro h
    simp only [sweeps, hl, Bool.and_eq_true] at h
    cases n with
    | file c b m => simpa [removable, isOld, nodeStats] using h.2
    | dir sz b m => simp [removable] at h
  · intro h
    obtain ⟨hu1, c, b, m, rfl⟩ := hu h
    simp only [isOld, nodeStats] at h
    simp [sweeps, hl, hs, hu1, removable, h]

theorem sweepEntry_noErrors (env : Env) (hc : PlainPath env.cwd) (now : Int)
    (st : Fs × List LogLine) {name : String} (h : PlainName name)
    (hok : noErrors (sweepEntry env now st name).2) :
    noErrors st.2 ∧ ∃ n, lookupAt st.1 (storageDir env ++ [name]) = some n ∧
      (sweeps env now st.1 (storageDir env ++ [name]) = true ↔ isOld now n) := by
  rw [sweepEntry_eq env hc now st h] at hok
  cases hs : env.fault .stat (storageDir env ++ [name]) with
  | some e =>
    rw [hs] at hok
    exact absurd hok (not_noErrors_append _ _)
  | none =>
    rw [hs] at hok
    cases hl : lookupAt st.1 (storageDir env ++ [name]) with
    | none =>
      rw [hl] at hok
      exact absurd hok (not_noErrors_append _ _)
    | some n =>
      rw [hl] at hok
      dsimp only at hok
      by_cases hold : now - (nodeStats n).mtimeMs > ONE_DAY
      · rw [if_pos hold] at hok
        cases hu : env.fault .unlink (storageDir env ++ [name]) with
        | some e =>
          rw [hu] at hok
          exact absurd hok (not_noErrors_append _ _)
        | none =>
          rw [hu] at hok
          cases n with
          | dir sz b m => exact absurd hok (not_noErrors_append _ _)
          | file c b m =>
            refine ⟨noErrors_of_append _ _ hok, _, rfl, ?_⟩
            exact sweeps_iff_isOld env now st.1 _ _ hl hs (fun _ => ⟨hu, c, b, m, rfl⟩)
      · rw [if_neg hold] at hok
        refine ⟨hok, n, rfl, ?_⟩
        exact sweeps_iff_isOld env now st.1 _ _ hl hs (fun ho => absurd ho hold)

theorem sweep_fold_noErrors (env : Env) (hc : PlainPath env.cwd) (now : Int)
    (names : List String) (hn : ∀ n ∈ names, PlainName n) (st : Fs × List LogLine)
    (hok : noErrors (names.foldl (sweepEntry env now) st).2) :
    noErrors st.2 ∧ ∀ name ∈ names, ∃ n, lookupAt st.1 (storageDir env ++ [name]) = some n ∧
      (sweeps env now st.1 (storageDir env ++ [name]) = true ↔ isOld now n) := by
  induction names generalizing st with
  | nil => exact ⟨hok, fun _ h => absurd h (List.not_mem_nil _)⟩
  | cons m rest ih =>
    have hpm : PlainName m := hn m (List.mem_cons_self _ _)
    have hrest : ∀ k ∈ rest, PlainName k := fun k hk => hn k (List.mem_cons_of_mem _ hk)
    rw [List.foldl_cons] at hok
    obtain ⟨hok1, hrestOk⟩ := ih hrest (sweepEntry env now st m) hok
    obtain ⟨hok0, hm⟩ := sweepEntry_noErrors env hc now st hpm hok1
    refine ⟨hok0, ?_⟩
    intro name hname
    rcases List.mem_cons.1 hname with rfl | hin
    · exact hm
    · obtain ⟨n, hl, hiff⟩ := hrestOk name hin
      have hstep := sweepEntry_lookup env hc now st hpm (storageDir env ++ [name])
      by_cases hA : storageDir env ++ [name] = storageDir env ++ [m] ∧
          sweeps env now st.1 (storageDir env ++ [name]) = true
      · rw [if_pos hA, hl] at hstep
        exact absurd hstep (by simp)
      · rw [if_neg hA] at hstep
        refine ⟨n, by rw [← hstep, hl], ?_⟩
        rw [← sweeps_congr env now hstep]
        exact hiff

theorem cleanUp_readdir_ok (env : Env) (now : Int) (fs : Fs)
    (hok : noErrors (cleanUpOldFiles env now fs).2) :
    ∃ files, fsReaddir env fs (parsePath UPLOAD_DIR) = .ok files := by
  cases hrd : fsReaddir env fs (parsePath UPLOAD_DIR) with
  | ok files => exact ⟨files, rfl⟩
  | error e =>
    unfold cleanUpOldFiles at hok
    rw [hrd] at hok
    exact absurd hok (not_noErrors_append [] _)

/-! ## Retention sweep -/

/-- C1: in a sweep cycle that reports no error, an entry of the storage directory is gone
afterwards exactly when `now` minus its last-modified time exceeds 24 hours, and an entry
within the window is still there with the same content and time stamps. -/
theorem cleanUpOldFiles_removes_exactly_old (env : Env) (now : Int) (fs : Fs)
    (hc : PlainPath env.cwd) (hwf : WellFormed fs)
    (hok : noErrors (cleanUpOldFiles env now fs).2)
    (name : String) (node : Node)
    (hent : lookupAt fs (storageDir env ++ [name]) = some node) :
    lookupAt (cleanUpOldFiles env now fs).1 (storageDir env ++ [name]) =
      if now - (nodeStats node).mtimeMs > 24 * 60 * 60 * 1000 then none else some node := by
  obtain ⟨files, hrd⟩ := cleanUp_readdir_ok env now fs hok
  have hfiles := fsReaddir_ok env hc fs files hrd
  have hmem : name ∈ files := by
    rw [hfiles, mem_listing, mem_keys_iff]
    exact ⟨node, hent⟩
  have hplain : ∀ n ∈ files, PlainName n := by
    intro n hn
    rw [hfiles] at hn
    exact plainName_of_listing fs hwf _ n hn
  have hok2 : noErrors (files.foldl (sweepEntry env now) (fs, [])).2 := by
    unfold cleanUpOldFiles at hok
    rw [hrd] at hok
    exact hok
  obtain ⟨_, hall⟩ := sweep_fold_noErrors env hc now files hplain (fs, []) hok2
  obtain ⟨n, hl, hiff⟩ := hall name hmem
  dsimp only at hl hiff
  rw [hent] at hl
  have hn : n = node := (Option.some.inj hl).symm
  subst hn
  rw [cleanUp_lookup env hc now fs hwf files hrd]
  have hchild : (childName (storageDir env) (storageDir env ++ [name])).isSome = true :=
    (isSome_childName _ _).2 ⟨name, rfl⟩
  by_cases hold : isOld now n
  · have hs := hiff.2 hold
    have hold2 : now - (nodeStats n).mtimeMs > 24 * 60 * 60 * 1000 := hold
    rw [if_pos ⟨hchild, hs⟩, if_pos hold2]
  · have hs : ¬ sweeps env now fs (storageDir env ++ [name]) = true := fun h => hold (hiff.1 h)
    have hold2 : ¬ now - (nodeStats n).mtimeMs > 24 * 60 * 60 * 1000 := hold
    rw [if_neg (fun h => hs h.2), if_neg hold2, hent]

theorem cleanUpOldFiles_removes_exactly_old_witness :
    noErrors (cleanUpOldFiles sweepEnv 100000000 sweepFs).2 ∧
    lookupAt (cleanUpOldFiles sweepEnv 100000000 sweepFs).1 ["srv", "uploads", "old"] =
      (if (100000000 : Int) - (nodeStats (.file [104, 105] 0 0)).mtimeMs > 24 * 60 * 60 * 1000
        then none else some (.file [104, 105] 0 0)) :=
  ⟨by decide,
   cleanUpOldFiles_removes_exactly_old sweepEnv 100000000 sweepFs (by decide) (by decide)
    (by decide) "old" (.file [104, 105] 0 0) (by decide)⟩

theorem sweeps_false_of_stat_error (env : Env) (hc : PlainPath env.cwd) (now : Int) (fs : Fs)
    {name : String} (h : PlainName name) (e : Errno)
    (herr : fsStat env fs (pathJoin [UPLOAD_DIR, name]) = .error e) :
    sweeps env now fs (storageDir env ++ [name]) = false := by
  rw [fsStat_eq env fs _ (pathJoin_trailingSlash h), resolve_pathJoin env hc h] at herr
  cases hs : env.fault .stat (storageDir env ++ [name]) with
  | some e1 => simp [sweeps, hs]
  | none =>
    rw [hs] at herr
    cases hl : lookupAt fs (storageDir env ++ [name]) with
    | none => exact sweeps_of_lookup_none env now hl
    | some n => rw [hl] at herr; simp at herr

theorem sweeps_false_of_unlink_error (env : Env) (hc : PlainPath env.cwd) (now : Int) (fs : Fs)
    {name : String} (h : PlainName name) (e : Errno)
    (herr : fsUnlink env fs (pathJoin [UPLOAD_DIR, name]) = .error e) :
    sweeps env now fs (storageDir env ++ [name]) = false := by
  rw [fsUnlink_eq env fs _ (pathJoin_trailingSlash h), resolve_pathJoin env hc h] at herr
  cases hu : env.fault .unlink (storageDir env ++ [name]) with
  | some e1 => simp [sweeps, hu]
  | none =>
    rw [hu] at herr
    cases hl : lookupAt fs (storageDir env ++ [name]) with
    | none => exact sweeps_of_lookup_none env now hl
    | some n =>
      rw [hl] at herr
      cases n with
      | file c b m => simp at herr
      | dir sz b m => simp [sweeps, hl, removable]

theorem sweeps_of_calls_ok (env : Env) (hc : PlainPath env.cwd) (now : Int) (fs : Fs)
    {name : String} (h : PlainName name) (stats : Stats) (fs1 : Fs)
    (hst : fsStat env fs (pathJoin [UPLOAD_DIR, name]) = .ok stats)
    (hun : fsUnlink env fs (pathJoin [UPLOAD_DIR, name]) = .ok fs1) :
    (sweeps env now fs (storageDir env ++ [name]) = true ↔ now - stats.mtimeMs > ONE_DAY) := by
  rw [fsStat_eq env fs _ (pathJoin_trailingSlash h), resolve_pathJoin env hc h] at hst
  rw [fsUnlink_eq env fs _ (pathJoin_trailingSlash h), resolve_pathJoin env hc h] at hun
  cases hs : env.fault .stat (storageDir env ++ [name]) with
  | some e1 => rw [hs] at hst; simp at hst
  | none =>
    cases hu : env.fault .unlink (storageDir env ++ [name]) with
    | some e1 => rw [hu] at hun; simp at hun
    | none =>
      rw [hs] at hst
      rw [hu] at hun
      cases hl : lookupAt fs (storageDir env ++ [name]) with
      | none => rw [hl] at hst; simp at hst
      | some n =>
        rw [hl] at hst hun
        cases n with
        | dir sz b m => simp at hun
        | file c b m =>
          simp only [Except.ok.injEq] at hst
          subst hst
          simp [sweeps, hs, hu, hl, removable, nodeStats]

theorem fsReaddir_dir (env : Env) (hc : PlainPath env.cwd) (fs : Fs) (files : List String)
    (h : fsReaddir env fs (parsePath UPLOAD_DIR) = .ok files) :
    ∃ sz b m, lookupAt fs (storageDir env) = some (.dir sz b m) := by
  unfold fsReaddir at h
  dsimp only at h
  rw [resolve_UPLOAD_DIR env hc] at h
  cases hf : env.fault .readdir (storageDir env) with
  | some e => simp [hf] at h
  | none =>
    rw [hf] at h
    cases hl : lookupAt fs (storageDir env) with
    | none => simp [hl] at h
    | some n =>
      cases n with
      | file c b m => simp [hl] at h
      | dir sz b m => exact ⟨sz, b, m, rfl⟩

theorem fsReaddir_of_dir (env : Env) (hc : PlainPath env.cwd) (fs : Fs)
    (hf : env.fault .readdir (storageDir env) = none) (sz : Nat) (b m : Int)
    (hl : lookupAt fs (storageDir env) = some (.dir sz b m)) :
    fsReaddir env fs (parsePath UPLOAD_DIR) =
      .ok (fs.keys.filterMap (childName (storageDir env))) := by
  unfold fsReaddir
  dsimp only
  rw [resolve_UPLOAD_DIR env hc, hf, hl]

/-- C8: a cycle whose `readdir` fails deletes nothing; in a cycle whose `readdir` succeeds,
an entry whose `stat` or `unlink` fails stays as it is, an entry whose calls succeed is
removed exactly when it is older than 24 hours, and the outcome for an entry is the same
under any other failures of the calls on the other entries. -/
theorem cleanUpOldFiles_entry_errors_local (env : Env) (now : Int) (fs : Fs)
    (hc : PlainPath env.cwd) (hwf : WellFormed fs) :
    (∀ e, fsReaddir env fs (parsePath UPLOAD_DIR) = .error e →
      (cleanUpOldFiles env now fs).1 = fs) ∧
    (∀ files, fsReaddir env fs (parsePath UPLOAD_DIR) = .ok files → ∀ name ∈ files,
      ((∃ e, fsStat env fs (pathJoin [UPLOAD_DIR, name]) = .error e) →
        lookupAt (cleanUpOldFiles env now fs).1 (storageDir env ++ [name]) =
          lookupAt fs (storageDir env ++ [name])) ∧
      ((∃ e, fsUnlink env fs (pathJoin [UPLOAD_DIR, name]) = .error e) →
        lookupAt (cleanUpOldFiles env now fs).1 (storageDir env ++ [name]) =
          lookupAt fs (storageDir env ++ [name])) ∧
      (∀ stats fs1, fsStat env fs (pathJoin [UPLOAD_DIR, name]) = .ok stats →
        fsUnlink env fs (pathJoin [UPLOAD_DIR, name]) = .ok fs1 →
        lookupAt (cleanUpOldFiles env now fs).1 (storageDir env ++ [name]) =
          if now - stats.mtimeMs > 24 * 60 * 60 * 1000 then none
          else lookupAt fs (storageDir env ++ [name])) ∧
      (∀ env2 : Env, env2.cwd = env.cwd → env2.fault .readdir (storageDir env) = none →
        env2.fault .stat (storageDir env ++ [name]) =
          env.fault .stat (storageDir env ++ [name]) →
        env2.fault .unlink (storageDir env ++ [name]) =
          env.fault .unlink (storageDir env ++ [name]) →
        lookupAt (cleanUpOldFiles env2 now fs).1 (storageDir env ++ [name]) =
          lookupAt (cleanUpOldFiles env now fs).1 (storageDir env ++ [name]))) := by
  constructor
  · intro e he
    unfold cleanUpOldFiles
    rw [he]
  · intro files hrd name hname
    have hfiles := fsReaddir_ok env hc fs files hrd
    have hp : PlainName name := by
      rw [hfiles] at hname
      exact plainName_of_listing fs hwf _ name hname
    have hcl := cleanUp_lookup env hc now fs hwf files hrd (storageDir env ++ [name])
    refine ⟨?_, ?_, ?_, ?_⟩
    · rintro ⟨e, he⟩
      rw [hcl, sweeps_false_of_stat_error env hc now fs hp e he]
      simp
    · rintro ⟨e, he⟩
      rw [hcl, sweeps_false_of_unlink_error env hc now fs hp e he]
      simp
    · intro stats fs1 hst hun
      have hiff := sweeps_of_calls_ok env hc now fs hp stats fs1 hst hun
      have hchild : (childName (storageDir env) (storageDir env ++ [name])).isSome = true :=
        (isSome_childName _ _).2 ⟨name, rfl⟩
      rw [hcl]
      by_cases hold : now - stats.mtimeMs > ONE_DAY
      · have hold2 : now - stats.mtimeMs > 24 * 60 * 60 * 1000 := hold
        rw [if_pos ⟨hchild, hiff.2 hold⟩, if_pos hold2]
      · have hold2 : ¬ now - stats.mtimeMs > 24 * 60 * 60 * 1000 := hold
        rw [if_neg (fun h => hold (hiff.1 h.2)), if_neg hold2]
    · intro env2 hcwd hrd2 hst2 hun2
      have hc2 : PlainPath env2.cwd := by rw [hcwd]; exact hc
      have hsd : storageDir env2 = storageDir env := by simp [storageDir, hcwd]
      obtain ⟨sz, b, m, hdir⟩ := fsReaddir_dir env hc fs files hrd
      have hrd2ok := fsReaddir_of_dir env2 hc2 fs (by rw [hsd]; exact hrd2) sz b m
        (by rw [hsd]; exact hdir)
      have hcl2 := cleanUp_lookup env2 hc2 now fs hwf _ hrd2ok (storageDir env ++ [name])
      rw [hcl, hcl2, hsd]
      have hsw : sweeps env2 now fs (storageDir env ++ [name]) =
          sweeps env now fs (storageDir env ++ [name]) := by
        simp [sweeps, hst2, hun2]
      rw [hsw]

theorem cleanUpOldFiles_entry_errors_local_witness :
    PlainPath sweepEnvDenied.cwd ∧ WellFormed sweepFs ∧
    lookupAt (cleanUpOldFiles sweepEnvDenied 200000000 sweepFs).1
        (storageDir sweepEnvDenied ++ ["new"]) =
      lookupAt sweepFs (storageDir sweepEnvDenied ++ ["new"]) :=
  ⟨by decide, by decide,
   ((cleanUpOldFiles_entry_errors_local sweepEnvDenied 200000000 sweepFs (by decide)
      (by decide)).2 ["new", "old"] (by decide) "new" (by decide)).1 ⟨.EACCES, by decide⟩⟩

/-! ## Upload responses -/

/-- C9: without a file part (`req.file` absent) the upload route answers 400 with
`No file uploaded.`; with `req.file` present the handler answers 200 with a message and
that metadata; and whenever the middleware completes for a request with a file part,
`req.file` is present and carries the assigned name and the number of bytes, so the route
answers 200 with them; for a new name whose write is not refused the bytes are stored
under the assigned name. -/
theorem uploadHandler_responses (env : Env) (now : Int) (rand : String) (fs : Fs)
    (part : FilePart) :
    uploadHandler none = { status := 400, body := .text "No file uploaded." } ∧
    (∀ f : MulterFile, uploadHandler (some f) =
      { status := 200, body := .uploaded "File uploaded successfully!" f }) ∧
    postUpload env now rand fs none =
      (fs, { status := 400, body := .text "No file uploaded." }) ∧
    (∀ fs1 file, multerSingle env now rand fs (some part) = .ok (fs1, file) →
      file = some
        { fieldname := "file", originalname := part.originalname, encoding := part.encoding,
          mimetype := part.mimetype, destination := UPLOAD_DIR, filename := rand,
          path := UPLOAD_DIR ++ rand, size := part.content.length } ∧
      postUpload env now rand fs (some part) =
        (fs1, { status := 200,
                body := .uploaded "File uploaded successfully!"
                  { fieldname := "file", originalname := part.originalname,
                    encoding := part.encoding, mimetype := part.mimetype,
                    destination := UPLOAD_DIR, filename := rand, path := UPLOAD_DIR ++ rand,
                    size := part.content.length } })) ∧
    (PlainPath env.cwd → PlainName rand →
      env.fault .write (storageDir env ++ [rand]) = none →
      lookupAt fs (storageDir env ++ [rand]) = none →
      postUpload env now rand fs (some part) =
        (fs.insert (storageDir env ++ [rand]) (.file part.content now now),
          { status := 200,
            body := .uploaded "File uploaded successfully!"
              { fieldname := "file", originalname := part.originalname,
                encoding := part.encoding, mimetype := part.mimetype,
                destination := UPLOAD_DIR, filename := rand, path := UPLOAD_DIR ++ rand,
                size := part.content.length } })) := by
  refine ⟨rfl, fun _ => rfl, rfl, ?_, ?_⟩
  · intro fs1 file h
    have hfile : file = some
        { fieldname := "file", originalname := part.originalname, encoding := part.encoding,
          mimetype := part.mimetype, destination := UPLOAD_DIR, filename := rand,
          path := UPLOAD_DIR ++ rand, size := part.content.length } := by
      unfold multerSingle at h
      dsimp only at h
      cases hf : env.fault .write (resolve env.cwd (pathJoin [UPLOAD_DIR, rand])) with
      | some e => rw [hf] at h; simp at h
      | none =>
        rw [hf] at h
        cases hl : lookupAt fs (resolve env.cwd (pathJoin [UPLOAD_DIR, rand])) with
        | none =>
          rw [hl] at h
          simp only [Except.ok.injEq, Prod.mk.injEq] at h
          exact h.2.symm
        | some n =>
          rw [hl] at h
          cases n with
          | dir sz b m => simp at h
          | file c b m =>
            simp only [Except.ok.injEq, Prod.mk.injEq] at h
            exact h.2.symm
    refine ⟨hfile, ?_⟩
    unfold postUpload
    rw [h, hfile]
    rfl
  · intro hc hr hw hnew
    unfold postUpload multerSingle
    dsimp only
    rw [resolve_pathJoin env hc hr, hw, hnew]
    rfl

theorem uploadHandler_responses_witness :
    PlainPath appEnv.cwd ∧ PlainName "3f9a" ∧
    appEnv.fault .write (storageDir appEnv ++ ["3f9a"]) = none ∧
    lookupAt appFs (storageDir appEnv ++ ["3f9a"]) = none ∧
    postUpload appEnv 1000 "3f9a" appFs (some helloPart) =
      (appFs.insert (storageDir appEnv ++ ["3f9a"]) (.file helloPart.content 1000 1000),
        { status := 200,
          body := .uploaded "File uploaded successfully!"
            { fieldname := "file", originalname := helloPart.originalname,
              encoding := helloPart.encoding, mimetype := helloPart.mimetype,
              destination := UPLOAD_DIR, filename := "3f9a", path := UPLOAD_DIR ++ "3f9a",
              size := helloPart.content.length } }) :=
  ⟨by decide, by decide, by decide, by decide,
   (uploadHandler_responses appEnv 1000 "3f9a" appFs helloPart).2.2.2.2 (by decide)
    (by decide) (by decide) (by decide)⟩

/-! ## Path traversal -/

theorem cleanSeg_of_plain {s : String} (h : PlainName s) : CleanSeg s :=
  ⟨h.1, h.2.1, h.2.2.1⟩

theorem normalizeStep_clean (b : Bool) (st : List String) {s : String} (h : CleanSeg s) :
    normalizeStep b st s = s :: st := by
  simp [normalizeStep, h.1, h.2.1, h.2.2]

theorem foldl_normalizeStep_clean (b : Bool) (segs : List String)
    (h : ∀ s ∈ segs, CleanSeg s) (st : List String) :
    segs.foldl (normalizeStep b) st = segs.reverse ++ st := by
  induction segs generalizing st with
  | nil => rfl
  | cons s segs ih =>
    have hs : CleanSeg s := h s (List.mem_cons_self _ _)
    have ht : ∀ t ∈ segs, CleanSeg t := fun t ht => h t (List.mem_cons_of_mem _ ht)
    simp [List.foldl_cons, normalizeStep_clean b st hs, ih ht]

theorem normalizeSegs_clean (b : Bool) (segs : List String) (h : ∀ s ∈ segs, CleanSeg s) :
    normalizeSegs b segs = segs := by
  simp [normalizeSegs, foldl_normalizeStep_clean b segs h]

/-- While a relative path does not climb, normalisation only changes what was pushed on
top of the base directory. -/
theorem foldl_normalizeStep_inside (base : List String) (segs : List String)
    (ext : List String) (hext : ∀ s ∈ ext, CleanSeg s)
    (h : climbs ext.length segs = false) :
    ∃ ext2, (∀ s ∈ ext2, CleanSeg s) ∧
      segs.foldl (normalizeStep false) (ext ++ base) = ext2 ++ base := by
  induction segs generalizing ext with
  | nil => exact ⟨ext, hext, rfl⟩
  | cons s rest ih =>
    rw [List.foldl_cons]
    by_cases h1 : s = "" ∨ s = "."
    · have hstep : normalizeStep false (ext ++ base) s = ext ++ base := by
        simp [normalizeStep, h1]
      rw [hstep]
      apply ih ext hext
      simpa [climbs, h1] using h
    · by_cases h2 : s = ".."
      · cases ext with
        | nil => simp [climbs, h2] at h
        | cons t ext0 =>
          have ht : t ≠ ".." := (hext t (List.mem_cons_self _ _)).2.2
          have hstep : normalizeStep false (t :: ext0 ++ base) s = ext0 ++ base := by
            simp [normalizeStep, h2, ht]
          rw [hstep]
          apply ih ext0 (fun u hu => hext u (List.mem_cons_of_mem _ hu))
          simpa [climbs, h2] using h
      · have hs : CleanSeg s := ⟨fun e => h1 (Or.inl e), fun e => h1 (Or.inr e), h2⟩
        rw [normalizeStep_clean false _ hs]
        have := ih (s :: ext) (by
          intro u hu
          rcases List.mem_cons.1 hu with rfl | hu
          · exact hs
          · exact hext u hu) (by simpa [climbs, h1, h2] using h)
        simpa using this

theorem foldl_filePath (b : Bool) (dir : Path) (hd : PlainPath dir) (f : String) :
    (dir ++ (nonEmptyArgs [UPLOAD_DIR, f]).flatMap segmentsOf).foldl (normalizeStep b) [] =
      (segmentsOf f).foldl (normalizeStep b) ("uploads" :: dir.reverse) := by
  have hu : normalizeStep b dir.reverse "uploads" = "uploads" :: dir.reverse :=
    normalizeStep_plain b _ plainName_uploads
  have he : normalizeStep b ("uploads" :: dir.reverse) "" = "uploads" :: dir.reverse := by
    simp [normalizeStep]
  have h1 : UPLOAD_DIR ≠ "" := by decide
  rw [List.foldl_append, foldl_normalizeStep_plain b dir hd, List.append_nil]
  by_cases hf : f = ""
  · subst hf
    have : segmentsOf "" = [""] := by decide
    simp [nonEmptyArgs, List.filter, h1, List.flatMap, segmentsOf_UPLOAD_DIR, this, hu, he]
  · simp [nonEmptyArgs, List.filter, h1, hf, List.flatMap, segmentsOf_UPLOAD_DIR, hu, he]

theorem resolve_filePathOf_inside (env : Env) (hd : PlainPath env.dirname) (f : String)
    (h : climbs 0 (segmentsOf f) = false) :
    ∃ rest, resolve env.cwd (filePathOf env f) = handlerDir env ++ rest := by
  obtain ⟨ext2, hclean, hfold⟩ :=
    foldl_normalizeStep_inside ("uploads" :: env.dirname.reverse) (segmentsOf f) [] 
      (fun _ hs => absurd hs (List.not_mem_nil _)) h
  have hsegs : (filePathOf env f).segs = handlerDir env ++ ext2.reverse := by
    simp only [filePathOf, pathJoinFrom, normalizeSegs]
    rw [foldl_filePath false env.dirname hd f]
    rw [List.nil_append] at hfold
    rw [hfold]
    simp [handlerDir]
  have ha : (filePathOf env f).absolute = true := rfl
  refine ⟨ext2.reverse, ?_⟩
  unfold resolve
  rw [ha, hsegs]
  simp only [if_true, List.nil_append]
  apply normalizeSegs_clean
  intro s hs
  rcases List.mem_append.1 hs with hs | hs
  · exact cleanSeg_of_plain (plainPath_dir hd s hs)
  · exact hclean s (List.mem_reverse.1 hs)

theorem deleteFile_of_noNul (env : Env) (fs : Fs) (f : String)
    (h : ¬ pathHasNul (filePathOf env f)) :
    deleteFile env fs f =
      match fsUnlink env fs (filePathOf env f) with
      | .error _ => (fs, { status := 404, body := .text "File not found." })
      | .ok fs1 => (fs1, { status := 200, body := .message "File deleted successfully!" }) := by
  unfold deleteFile
  dsimp only
  rw [if_neg h]

theorem deleteFile_of_nul (env : Env) (fs : Fs) (f : String)
    (h : pathHasNul (filePathOf env f)) :
    deleteFile env fs f = (fs, { status := 500, body := .errorPage }) := by
  unfold deleteFile
  dsimp only
  rw [if_pos h]

theorem fileDetails_of_noNul (env : Env) (fs : Fs) (f : String)
    (h : ¬ pathHasNul (filePathOf env f)) :
    fileDetails env fs f =
      match fsStat env fs (filePathOf env f) with
      | .error _ => { status := 404, body := .text "File not found." }
      | .ok stats =>
        { status := 200, body := .details f stats.size stats.birthtimeMs stats.mtimeMs } := by
  unfold fileDetails
  dsimp only
  rw [if_neg h]

theorem fileDetails_of_nul (env : Env) (fs : Fs) (f : String)
    (h : pathHasNul (filePathOf env f)) :
    fileDetails env fs f = { status := 500, body := .errorPage } := by
  unfold fileDetails
  dsimp only
  rw [if_pos h]

theorem downloadFile_of_noNul (env : Env) (fs : Fs) (f : String)
    (h : ¬ pathHasNul (filePathOf env f)) :
    downloadFile env fs f =
      match fsReadFile env fs (filePathOf env f) with
      | .error _ => { status := 404, body := .text "File not found." }
      | .ok bytes =>
        { status := 200, body := .attachment ((filePathOf env f).segs.getLast?.getD "") bytes } := by
  unfold downloadFile resDownload
  dsimp only
  rw [if_neg h]
  cases fsReadFile env fs (filePathOf env f) <;> rfl

theorem downloadFile_of_nul (env : Env) (fs : Fs) (f : String)
    (h : pathHasNul (filePathOf env f)) :
    downloadFile env fs f = { status := 404, body := .text "File not found." } := by
  unfold downloadFile resDownload
  dsimp only
  rw [if_pos h]

theorem not_pathHasNul_filePathOf (env : Env) (hd : PlainPath env.dirname) {name : String}
    (h : PlainName name) : ¬ pathHasNul (filePathOf env name) := by
  unfold pathHasNul
  rw [filePathOf_segs env hd h]
  rintro ⟨s, hs, h0⟩
  exact (plainPath_entry hd h s hs).2.2.2.2 h0

theorem deleteFile_lookup_ne (env : Env) (fs : Fs) (f : String) (r : Path)
    (hr : r ≠ resolve env.cwd (filePathOf env f)) :
    lookupAt (deleteFile env fs f).1 r = lookupAt fs r := by
  by_cases hnul : pathHasNul (filePathOf env f)
  · rw [deleteFile_of_nul env fs f hnul]
  rw [deleteFile_of_noNul env fs f hnul]
  unfold fsUnlink
  dsimp only
  cases env.fault .unlink (resolve env.cwd (filePathOf env f)) with
  | some e => rfl
  | none =>
    cases lookupAt fs (resolve env.cwd (filePathOf env f)) with
    | none => rfl
    | some n =>
      cases n with
      | dir sz b m => rfl
      | file c b m =>
        dsimp only
        cases (filePathOf env f).trailingSlash with
        | true => rfl
        | false => exact lookupAt_erase_ne fs hr

theorem handlers_read_resolved_only (env : Env) (fs fs2 : Fs) (f : String)
    (h : lookupAt fs2 (resolve env.cwd (filePathOf env f)) =
      lookupAt fs (resolve env.cwd (filePathOf env f))) :
    fileDetails env fs2 f = fileDetails env fs f ∧
    downloadFile env fs2 f = downloadFile env fs f ∧
    (deleteFile env fs2 f).2 = (deleteFile env fs f).2 := by
  by_cases hnul : pathHasNul (filePathOf env f)
  · refine ⟨?_, ?_, ?_⟩
    · rw [fileDetails_of_nul env fs f hnul, fileDetails_of_nul env fs2 f hnul]
    · rw [downloadFile_of_nul env fs f hnul, downloadFile_of_nul env fs2 f hnul]
    · rw [deleteFile_of_nul env fs f hnul, deleteFile_of_nul env fs2 f hnul]
  refine ⟨?_, ?_, ?_⟩
  · rw [fileDetails_of_noNul env fs f hnul, fileDetails_of_noNul env fs2 f hnul]
    unfold fsStat
    dsimp only
    rw [h]
  · rw [downloadFile_of_noNul env fs f hnul, downloadFile_of_noNul env fs2 f hnul]
    unfold fsReadFile
    dsimp only
    rw [h]
  · rw [deleteFile_of_noNul env fs f hnul, deleteFile_of_noNul env fs2 f hnul]
    unfold fsUnlink
    dsimp only
    rw [h]
    cases env.fault .unlink (resolve env.cwd (filePathOf env f)) with
    | some e => rfl
    | none =>
      cases lookupAt fs (resolve env.cwd (filePathOf env f)) with
      | none => rfl
      | some n =>
        cases n with
        | dir sz b m => rfl
        | file c b m =>
          dsimp only
          cases (filePathOf env f).trailingSlash <;> rfl

/-- C2 as stated fails: the filename `../secret.txt` has a parent-directory segment, is
resolved to `/srv/app/secret.txt` outside the upload directory, and the details, download
and delete handlers answer 200 there; the delete handler removes that file. -/
theorem traversal_leaves_storage_root :
    ".." ∈ segmentsOf "../secret.txt" ∧
    resolve appEnv.cwd (filePathOf appEnv "../secret.txt") = ["srv", "app", "secret.txt"] ∧
    (¬ ∃ rest, ["srv", "app", "secret.txt"] = handlerDir appEnv ++ rest) ∧
    lookupAt appFs ["srv", "app", "secret.txt"] = some (.file [1, 2, 3] 5 6) ∧
    fileDetails appEnv appFs "../secret.txt" =
      { status := 200, body := .details "../secret.txt" 3 5 6 } ∧
    downloadFile appEnv appFs "../secret.txt" =
      { status := 200, body := .attachment "secret.txt" [1, 2, 3] } ∧
    (deleteFile appEnv appFs "../secret.txt").2 =
      { status := 200, body := .message "File deleted successfully!" } ∧
    lookupAt (deleteFile appEnv appFs "../secret.txt").1 ["srv", "app", "secret.txt"] = none := by
  refine ⟨by decide, by decide, ?_, by decide, by decide, by decide, by decide, by decide⟩
  rintro ⟨rest, h⟩
  simp [handlerDir, appEnv] at h

/-- C2, amended: the three handlers read, stat or delete only the path
`path.join(__dirname, UPLOAD_DIR, filename)`, and that path lies under the upload directory
whenever the filename never climbs above it. -/
theorem handlers_confined_without_climb (env : Env) (fs : Fs) (filename : String)
    (hd : PlainPath env.dirname) :
    (∀ r, r ≠ resolve env.cwd (filePathOf env filename) →
      lookupAt (deleteFile env fs filename).1 r = lookupAt fs r) ∧
    (∀ fs2 : Fs, lookupAt fs2 (resolve env.cwd (filePathOf env filename)) =
        lookupAt fs (resolve env.cwd (filePathOf env filename)) →
      fileDetails env fs2 filename = fileDetails env fs filename ∧
      downloadFile env fs2 filename = downloadFile env fs filename ∧
      (deleteFile env fs2 filename).2 = (deleteFile env fs filename).2) ∧
    (climbs 0 (segmentsOf filename) = false →
      ∃ rest, resolve env.cwd (filePathOf env filename) = handlerDir env ++ rest) :=
  ⟨fun r hr => deleteFile_lookup_ne env fs filename r hr,
   fun fs2 h => handlers_read_resolved_only env fs fs2 filename h,
   fun h => resolve_filePathOf_inside env hd filename h⟩

theorem handlers_confined_without_climb_witness :
    PlainPath appEnv.dirname ∧ ".." ∈ segmentsOf "a/../x" ∧
    climbs 0 (segmentsOf "a/../x") = false ∧
    ∃ rest, resolve appEnv.cwd (filePathOf appEnv "a/../x") = handlerDir appEnv ++ rest :=
  ⟨by decide, by decide, by decide,
   (handlers_confined_without_climb appEnv appFs "a/../x" (by decide)).2.2 (by decide)⟩

/-! ## Missing files and failing calls -/

/-- C6 as stated fails: `../secret.txt` names no entry of the upload directory, yet the
details, delete and download handlers answer 200 (for `/srv/app/secret.txt`); and the
decoded parameter `a%00b` names no entry either, yet details and delete answer 500. -/
theorem absent_name_answered_200 :
    appEnv.dirname = appEnv.cwd ∧
    listFiles appEnv appFs = { status := 200, body := .names ["x"] } ∧
    "../secret.txt" ∉ ["x"] ∧
    lookupAt appFs (storageDir appEnv ++ ["../secret.txt"]) = none ∧
    (fileDetails appEnv appFs "../secret.txt").status = 200 ∧
    (deleteFile appEnv appFs "../secret.txt").2.status = 200 ∧
    (downloadFile appEnv appFs "../secret.txt").status = 200 ∧
    nulName ∉ ["x"] ∧
    (fileDetails appEnv appFs nulName).status = 500 ∧
    (deleteFile appEnv appFs nulName).2.status = 500 := by
  decide

theorem not_found_of_absent (env : Env) (fs : Fs) (filename : String)
    (hd : PlainPath env.dirname) (hn : PlainName filename)
    (habs : lookupAt fs (handlerDir env ++ [filename]) = none) :
    deleteFile env fs filename = (fs, { status := 404, body := .text "File not found." }) ∧
    fileDetails env fs filename = { status := 404, body := .text "File not found." } ∧
    downloadFile env fs filename = { status := 404, body := .text "File not found." } := by
  have hq := resolve_filePathOf env hd hn
  have hnul := not_pathHasNul_filePathOf env hd hn
  refine ⟨?_, ?_, ?_⟩
  · rw [deleteFile_of_noNul env fs filename hnul]
    unfold fsUnlink
    dsimp only
    rw [hq, habs]
    cases env.fault .unlink (handlerDir env ++ [filename]) <;> rfl
  · rw [fileDetails_of_noNul env fs filename hnul]
    unfold fsStat
    dsimp only
    rw [hq, habs]
    cases env.fault .stat (handlerDir env ++ [filename]) <;> rfl
  · rw [downloadFile_of_noNul env fs filename hnul]
    unfold fsReadFile
    dsimp only
    rw [hq, habs]
    cases env.fault .read (handlerDir env ++ [filename]) <;> rfl

/-- C6, amended: where `UPLOAD_DIR` names one directory (the working directory is
`__dirname`), for a filename that is a plain entry name and is absent from the storage
directory, the delete, details and download handlers answer 404 with `File not found.`
and the file system is unchanged. -/
theorem absent_plain_name_not_found (env : Env) (fs : Fs) (filename : String)
    (hc : PlainPath env.cwd) (hcd : env.dirname = env.cwd) (hn : PlainName filename)
    (habs : filename ∉ fs.keys.filterMap (childName (storageDir env))) :
    deleteFile env fs filename = (fs, { status := 404, body := .text "File not found." }) ∧
    fileDetails env fs filename = { status := 404, body := .text "File not found." } ∧
    downloadFile env fs filename = { status := 404, body := .text "File not found." } := by
  have hd : PlainPath env.dirname := by rw [hcd]; exact hc
  have hhs : handlerDir env = storageDir env := by simp [handlerDir, storageDir, hcd]
  have hnone : lookupAt fs (handlerDir env ++ [filename]) = none := by
    rw [hhs]
    cases hl : lookupAt fs (storageDir env ++ [filename]) with
    | none => rfl
    | some n =>
      exact absurd ((mem_listing fs _ _).2 ((mem_keys_iff fs _).2 ⟨n, hl⟩)) habs
  exact not_found_of_absent env fs filename hd hn hnone

theorem absent_plain_name_not_found_witness :
    PlainPath appEnv.cwd ∧ appEnv.dirname = appEnv.cwd ∧ PlainName "y" ∧
    "y" ∉ appFs.keys.filterMap (childName (storageDir appEnv)) ∧
    deleteFile appEnv appFs "y" = (appFs, { status := 404, body := .text "File not found." }) ∧
    fileDetails appEnv appFs "y" = { status := 404, body := .text "File not found." } ∧
    downloadFile appEnv appFs "y" = { status := 404, body := .text "File not found." } :=
  ⟨by decide, by decide, by decide, by decide,
   absent_plain_name_not_found appEnv appFs "y" (by decide) (by decide) (by decide)
    (by decide)⟩

/-- C7 as stated fails: `unlink` and `stat` of the existing upload `x` are refused with
EACCES, and the delete and details handlers answer 404, not a server error. -/
theorem permission_failure_answered_404 :
    lookupAt appFs (handlerDir appEnvDenied ++ ["x"]) = some (.file [104, 105] 10 10) ∧
    fsUnlink appEnvDenied appFs (filePathOf appEnvDenied "x") = .error .EACCES ∧
    fsStat appEnvDenied appFs (filePathOf appEnvDenied "x") = .error .EACCES ∧
    (deleteFile appEnvDenied appFs "x").2 =
      { status := 404, body := .text "File not found." } ∧
    fileDetails appEnvDenied appFs "x" = { status := 404, body := .text "File not found." } ∧
    ¬ 500 ≤ (deleteFile appEnvDenied appFs "x").2.status ∧
    ¬ 500 ≤ (fileDetails appEnvDenied appFs "x").status := by
  decide

/-- C7, amended: whenever `unlink` (for delete) or `stat` (for details) reports an error to
its callback, for whatever reason, the handler answers 404 with `File not found.` and
changes nothing; the handlers answer a server error (500) exactly when the path holds a
NUL byte, where the call throws before any file-system access, and 200 or 404 otherwise. -/
theorem any_failure_answers_404 (env : Env) (fs : Fs) (filename : String) :
    (∀ e, ¬ pathHasNul (filePathOf env filename) →
      fsUnlink env fs (filePathOf env filename) = .error e →
      deleteFile env fs filename = (fs, { status := 404, body := .text "File not found." })) ∧
    (∀ e, ¬ pathHasNul (filePathOf env filename) →
      fsStat env fs (filePathOf env filename) = .error e →
      fileDetails env fs filename = { status := 404, body := .text "File not found." }) ∧
    (pathHasNul (filePathOf env filename) →
      deleteFile env fs filename = (fs, { status := 500, body := .errorPage }) ∧
      fileDetails env fs filename = { status := 500, body := .errorPage }) ∧
    (¬ pathHasNul (filePathOf env filename) →
      ((deleteFile env fs filename).2.status = 200 ∨
        (deleteFile env fs filename).2.status = 404) ∧
      ((fileDetails env fs filename).status = 200 ∨
        (fileDetails env fs filename).status = 404)) := by
  refine ⟨?_, ?_, ?_, ?_⟩
  · intro e hnul he
    rw [deleteFile_of_noNul env fs filename hnul, he]
  · intro e hnul he
    rw [fileDetails_of_noNul env fs filename hnul, he]
  · intro hnul
    exact ⟨deleteFile_of_nul env fs filename hnul, fileDetails_of_nul env fs filename hnul⟩
  · intro hnul
    rw [deleteFile_of_noNul env fs filename hnul, fileDetails_of_noNul env fs filename hnul]
    constructor
    · cases fsUnlink env fs (filePathOf env filename) with
      | error e => exact Or.inr rfl
      | ok fs1 => exact Or.inl rfl
    · cases fsStat env fs (filePathOf env filename) with
      | error e => exact Or.inr rfl
      | ok st => exact Or.inl rfl

theorem any_failure_answers_404_witness :
    ¬ pathHasNul (filePathOf appEnvDenied "x") ∧
    fsUnlink appEnvDenied appFs (filePathOf appEnvDenied "x") = .error .EACCES ∧
    deleteFile appEnvDenied appFs "x" =
      (appFs, { status := 404, body := .text "File not found." }) :=
  ⟨by decide, by decide,
   (any_failure_answers_404 appEnvDenied appFs "x").1 .EACCES (by decide) (by decide)⟩

/-! ## Upload, list, download, details, delete: one directory or two -/

/-- C3 at the failing input: started from `/srv`, the upload of `hi` succeeds under the
name `3f9a` (written to `/srv/uploads/3f9a`), and the download of `3f9a` (read from
`/srv/app/uploads/3f9a`) answers 404. -/
theorem upload_then_download_not_found :
    (postUpload splitEnv 1000 "3f9a" splitFs (some helloPart)).2 =
      { status := 200,
        body := .uploaded "File uploaded successfully!"
          { fieldname := "file", originalname := "hello.txt", encoding := "7bit",
            mimetype := "text/plain", destination := "uploads/", filename := "3f9a",
            path := "uploads/3f9a", size := 2 } } ∧
    lookupAt (postUpload splitEnv 1000 "3f9a" splitFs (some helloPart)).1
      ["srv", "uploads", "3f9a"] = some (.file [104, 105] 1000 1000) ∧
    downloadFile splitEnv (postUpload splitEnv 1000 "3f9a" splitFs (some helloPart)).1 "3f9a" =
      { status := 404, body := .text "File not found." } := by
  decide

/-- C5 at the failing input: started from `/srv`, the uploaded name is listed, and the
details request for it answers 404. -/
theorem upload_then_details_not_found :
    (postUpload splitEnv 1000 "3f9a" splitFs (some helloPart)).2.status = 200 ∧
    listFiles splitEnv (postUpload splitEnv 1000 "3f9a" splitFs (some helloPart)).1 =
      { status := 200, body := .names ["3f9a"] } ∧
    fileDetails splitEnv (postUpload splitEnv 1000 "3f9a" splitFs (some helloPart)).1 "3f9a" =
      { status := 404, body := .text "File not found." } := by
  decide

/-- C4 at the failing input: started from `/srv`, the delete of `x` succeeds (it removes
`/srv/app/uploads/x`), and the list response still holds `x` (from `/srv/uploads`). -/
theorem delete_then_still_listed :
    listFiles splitEnv splitFsBoth = { status := 200, body := .names ["x"] } ∧
    (deleteFile splitEnv splitFsBoth "x").2 =
      { status := 200, body := .message "File deleted successfully!" } ∧
    listFiles splitEnv (deleteFile splitEnv splitFsBoth "x").1 =
      { status := 200, body := .names ["x"] } := by
  decide

/-! ### The same routes when the process is started in the directory of the server file -/

theorem postUpload_ok (env : Env) (hc : PlainPath env.cwd) (now : Int) {rand : String}
    (hr : PlainName rand) (fs : Fs) (part : FilePart)
    (hst : (postUpload env now rand fs (some part)).2.status = 200) :
    ∃ b, postUpload env now rand fs (some part) =
      (fs.insert (storageDir env ++ [rand]) (.file part.content b now),
        { status := 200,
          body := .uploaded "File uploaded successfully!"
            { fieldname := "file", originalname := part.originalname,
              encoding := part.encoding, mimetype := part.mimetype,
              destination := UPLOAD_DIR, filename := rand, path := UPLOAD_DIR ++ rand,
              size := part.content.length } }) := by
  unfold postUpload multerSingle at hst ⊢
  dsimp only at hst ⊢
  rw [resolve_pathJoin env hc hr] at hst ⊢
  cases hf : env.fault .write (storageDir env ++ [rand]) with
  | some e => rw [hf] at hst; simp at hst
  | none =>
    rw [hf] at hst
    cases hl : lookupAt fs (storageDir env ++ [rand]) with
    | none => exact ⟨now, rfl⟩
    | some n =>
      cases n with
      | dir sz b m => rw [hl] at hst; simp at hst
      | file c b m => exact ⟨b, rfl⟩

/-- Round trip when `process.cwd()` is `__dirname`: the download of the assigned name
answers 200 with exactly the uploaded bytes. -/
theorem roundtrip_same_dir (env : Env) (hc : PlainPath env.cwd) (hcd : env.dirname = env.cwd)
    (now : Int) {rand : String} (hr : PlainName rand) (fs : Fs) (part : FilePart)
    (hst : (postUpload env now rand fs (some part)).2.status = 200)
    (hread : env.fault .read (storageDir env ++ [rand]) = none) :
    downloadFile env (postUpload env now rand fs (some part)).1 rand =
      { status := 200, body := .attachment rand part.content } := by
  obtain ⟨b, hup⟩ := postUpload_ok env hc now hr fs part hst
  have hd : PlainPath env.dirname := by rw [hcd]; exact hc
  have hq : resolve env.cwd (filePathOf env rand) = storageDir env ++ [rand] := by
    rw [resolve_filePathOf env hd hr]
    simp [handlerDir, storageDir, hcd]
  have hsegs := filePathOf_segs env hd hr
  rw [hup]
  dsimp only
  rw [downloadFile_of_noNul env _ rand (not_pathHasNul_filePathOf env hd hr)]
  unfold fsReadFile
  dsimp only
  rw [hq, hread, lookupAt_insert_self, hsegs]
  simp

/-- Upload, then list and details, when `process.cwd()` is `__dirname`: the assigned name
is listed and the details carry the number of uploaded bytes. -/
theorem upload_listed_sized_same_dir (env : Env) (hc : PlainPath env.cwd)
    (hcd : env.dirname = env.cwd) (now : Int) {rand : String} (hr : PlainName rand) (fs : Fs)
    (part : FilePart) (hst : (postUpload env now rand fs (some part)).2.status = 200)
    (sz : Nat) (bd md : Int) (hdir : lookupAt fs (storageDir env) = some (.dir sz bd md))
    (hrd : env.fault .readdir (storageDir env) = none)
    (hstat : env.fault .stat (storageDir env ++ [rand]) = none) :
    (∃ files, listFiles env (postUpload env now rand fs (some part)).1 =
        { status := 200, body := .names files } ∧ rand ∈ files) ∧
    ∃ b, fileDetails env (postUpload env now rand fs (some part)).1 rand =
      { status := 200, body := .details rand part.content.length b now } := by
  obtain ⟨b, hup⟩ := postUpload_ok env hc now hr fs part hst
  have hd : PlainPath env.dirname := by rw [hcd]; exact hc
  have hq : resolve env.cwd (filePathOf env rand) = storageDir env ++ [rand] := by
    rw [resolve_filePathOf env hd hr]
    simp [handlerDir, storageDir, hcd]
  rw [hup]
  constructor
  · have hne : storageDir env ≠ storageDir env ++ [rand] := by
      intro h
      have := congrArg List.length h
      simp at this
    have hdir2 : lookupAt (fs.insert (storageDir env ++ [rand]) (.file part.content b now))
        (storageDir env) = some (.dir sz bd md) := by
      rw [lookupAt_insert_ne fs _ hne, hdir]
    refine ⟨(fs.insert (storageDir env ++ [rand]) (.file part.content b now)).keys.filterMap
      (childName (storageDir env)), ?_, ?_⟩
    · unfold listFiles
      rw [fsReaddir_of_dir env hc _ hrd sz bd md hdir2]
    · rw [mem_listing, mem_keys_iff]
      exact ⟨_, lookupAt_insert_self fs _ _⟩
  · refine ⟨b, ?_⟩
    dsimp only
    rw [fileDetails_of_noNul env _ rand (not_pathHasNul_filePathOf env hd hr),
      fsStat_eq env _ _ (filePathOf_trailingSlash env hr), hq, hstat, lookupAt_insert_self]
    rfl

/-- Delete when `process.cwd()` is `__dirname`: after a successful delete of `x` the listing
has lost `x` and nothing else, and download, details and delete of `x` answer 404. -/
theorem delete_then_absent_same_dir (env : Env) (hc : PlainPath env.cwd)
    (hcd : env.dirname = env.cwd) (fs : Fs) {x : String} (hx : PlainName x)
    (hst : (deleteFile env fs x).2.status = 200) :
    (∀ y, y ∈ (deleteFile env fs x).1.keys.filterMap (childName (storageDir env)) ↔
      y ≠ x ∧ y ∈ fs.keys.filterMap (childName (storageDir env))) ∧
    (∀ r, r ≠ storageDir env ++ [x] →
      lookupAt (deleteFile env fs x).1 r = lookupAt fs r) ∧
    downloadFile env (deleteFile env fs x).1 x =
      { status := 404, body := .text "File not found." } ∧
    fileDetails env (deleteFile env fs x).1 x =
      { status := 404, body := .text "File not found." } ∧
    (deleteFile env (deleteFile env fs x).1 x).2 =
      { status := 404, body := .text "File not found." } := by
  have hd : PlainPath env.dirname := by rw [hcd]; exact hc
  have hhs : handlerDir env = storageDir env := by simp [handlerDir, storageDir, hcd]
  have hq : resolve env.cwd (filePathOf env x) = storageDir env ++ [x] := by
    rw [resolve_filePathOf env hd hx, hhs]
  have hfs : (deleteFile env fs x).1 = fs.erase (storageDir env ++ [x]) := by
    rw [deleteFile_of_noNul env fs x (not_pathHasNul_filePathOf env hd hx),
      fsUnlink_eq env fs _ (filePathOf_trailingSlash env hx), hq] at hst ⊢
    cases hf : env.fault .unlink (storageDir env ++ [x]) with
    | some e => rw [hf] at hst; simp at hst
    | none =>
      rw [hf] at hst
      cases hl : lookupAt fs (storageDir env ++ [x]) with
      | none => rw [hl] at hst; simp at hst
      | some n =>
        cases n with
        | dir sz b m => rw [hl] at hst; simp at hst
        | file c b m => rfl
  have habs : lookupAt (deleteFile env fs x).1 (handlerDir env ++ [x]) = none := by
    rw [hfs, hhs]
    exact lookupAt_erase_self fs _
  obtain ⟨h1, h2, h3⟩ := not_found_of_absent env (deleteFile env fs x).1 x hd hx habs
  refine ⟨?_, ?_, h3, h2, by rw [h1]⟩
  · intro y
    rw [mem_listing, mem_listing, mem_keys_iff, mem_keys_iff, hfs]
    by_cases hy : y = x
    · subst hy
      simp [lookupAt_erase_self]
    · have hne : storageDir env ++ [y] ≠ storageDir env ++ [x] := by
        intro h
        exact hy (by simpa using h)
      rw [lookupAt_erase_ne fs hne]
      simp [hy]
  · intro r hr
    rw [hfs]
    exact lookupAt_erase_ne fs hr

end FlareCloud
